import Mathlib

/-!
# Durability core of a decentralized object-storage satellite

A shallow embedding, in Lean, of the segment-health checker, the segment
repairer, the audit verifier, and the storage-node order verification of the
repository, together with theorems settling the specification's claims about
them.

Conventions:
* Go `int32`/`int64` values (redundancy thresholds, byte amounts, times,
  durations) are modelled as `Int`; slice lengths fit in these types for any
  realistic input, so no wraparound is modelled.
* Node ids, serial numbers and satellite ids are opaque; they are modelled as
  `Nat`.
* Go slices become `List`s, Go maps become association lists (iteration order
  of a Go map is unspecified; only the set of entries is used by theorems).
* A Go function returning `(T, error)` becomes a function into `Except E T`
  or `T × Option E`, matching which of the two results the callers read.
-/

namespace Storj

/-- `pb.RedundancyScheme`, the fields the checker and repairer read:
`minReq` = k, `repairThreshold` = r, `successThreshold` = s, `total` = n. -/
structure Redundancy where
  minReq : Int
  repairThreshold : Int
  successThreshold : Int
  total : Int
deriving Repr, DecidableEq

/-- `pb.RemotePiece`: one erasure-coded piece of a remote segment, identified
by its piece number and the node storing it. -/
structure RemotePiece where
  pieceNum : Int
  nodeId : Nat
deriving Repr, DecidableEq

/-! ## Segment-health checker (`checker.checkerObserver.RemoteSegment`)

The observer receives a remote segment's pieces and the piece numbers the
reliability cache reports missing, and either does nothing, enqueues an
injured-segment item on the repair queue (also deleting any irreparable-store
record for the path), or upserts an irreparable-store record. -/

/-- The externally visible action `checkerObserver.RemoteSegment` takes for
one remote segment. `enqueue lost` is the insertion of
`(path, lost, now)` into the repair queue (followed by the irreparable-store
delete); `irreparable n` is the `IncrementRepairAttempts` upsert with
`LostPieces = n`; `noop` covers the healthy case, the `pieces == nil` early
return, and the logged bad-redundancy drop. -/
inductive CheckerAction
  | noop
  | enqueue (lostPieces : List Int)
  | irreparable (lostPieces : Int)
deriving Repr, DecidableEq

/-- `checkerObserver.RemoteSegment` (src/unnamed/part_002, lines 221-308),
as a function of the segment's pieces and the missing piece numbers returned
by `ReliabilityCache.MissingPieces`. -/
def remoteSegment (red : Redundancy) (pieces : List RemotePiece)
    (missingPieces : List Int) : CheckerAction :=
  if pieces = [] then .noop
  else
    let numHealthy : Int := (pieces.length : Int) - (missingPieces.length : Int)
    if red.minReq < numHealthy ∧ numHealthy ≤ red.repairThreshold ∧
        numHealthy < red.successThreshold then
      if missingPieces = [] then .noop
      else .enqueue missingPieces
    else if numHealthy ≤ red.minReq ∧ numHealthy < red.repairThreshold then
      .irreparable (missingPieces.length : Int)
    else .noop

/-! ## Segment repairer (`repairer.SegmentRepairer.Repair`) -/

/-- How one `SegmentRepairer.Repair` call ends, on the path where every
external call (orders, overlay, download, upload) succeeds.
`errorNotRemote` and `errorIrreparable` are error returns taken before any
download, upload or pointer update; `successNotNeeded` is the nil return for
a segment above the repair threshold, also before any download, upload or
pointer update; `updatedPointer add remove` records the one
`metainfo.UpdatePieces(ctx, path, pointer, add, remove)` call the function
makes after downloading and re-uploading. -/
inductive RepairResult
  | errorNotRemote
  | errorIrreparable (numHealthy : Int)
  | successNotNeeded
  | updatedPointer (add remove : List RemotePiece)
deriving Repr, DecidableEq

/-- The `healthyPieces` partition of `Repair`: pieces whose piece number is
not in `lostPiecesSet`. -/
def healthyOf (pieces : List RemotePiece) (missingPieces : List Int) : List RemotePiece :=
  pieces.filter fun p => decide (p.pieceNum ∉ missingPieces)

/-- The `unhealthyPieces` partition of `Repair`: pieces whose piece number is
in `lostPiecesSet`. -/
def unhealthyOf (pieces : List RemotePiece) (missingPieces : List Int) : List RemotePiece :=
  pieces.filter fun p => decide (p.pieceNum ∈ missingPieces)

/-- The `repairedPieces` loop of `Repair`: from the `successfulNodes` slice
returned by `ec.Repair` (aligned to piece number, `none` for a failed or
cancelled upload), the pieces `{PieceNum: int32(i), NodeId: node.Id}` for
each non-nil slot. `i` is the running slice index. -/
def repairedFrom (i : Nat) : List (Option Nat) → List RemotePiece
  | [] => []
  | none :: rest => repairedFrom (i + 1) rest
  | some nid :: rest => ⟨(i : Int), nid⟩ :: repairedFrom (i + 1) rest

/-- `SegmentRepairer.Repair` (src/satellite/repair/repairer/segments.go,
lines 68-239) on the path where the metainfo read, order creation, node
selection, download and upload all succeed. Inputs: whether the pointer is
remote, its redundancy and pieces, the missing piece numbers from
`cache.GetMissingPieces`, and the `successfulNodes` slice `ec.Repair`
returned. -/
def repairRun (remoteType : Bool) (red : Redundancy) (pieces : List RemotePiece)
    (missingPieces : List Int) (successfulNodes : List (Option Nat)) : RepairResult :=
  if ¬ remoteType then .errorNotRemote
  else
    let numHealthy : Int := (pieces.length : Int) - (missingPieces.length : Int)
    if numHealthy < red.minReq + 1 then .errorIrreparable numHealthy
    else if red.repairThreshold < numHealthy then .successNotNeeded
    else
      let healthyPieces := healthyOf pieces missingPieces
      let unhealthyPieces := unhealthyOf pieces missingPieces
      let repairedPieces := repairedFrom 0 successfulNodes
      let healthyAfterRepair : Int :=
        (healthyPieces.length : Int) + (repairedPieces.length : Int)
      let toRemove :=
        if red.successThreshold ≤ healthyAfterRepair then unhealthyPieces
        else unhealthyPieces.filter fun p =>
          decide (p.pieceNum ∈ repairedPieces.map RemotePiece.pieceNum)
      .updatedPointer repairedPieces toRemove

/-! ## Audit verifier (`audit.Verifier`)

Errors observed by the verifier are classified through three predicates:
`transport.Error.Has(err)`, `errs.Is(err, context.DeadlineExceeded)` and
`errs2.IsRPC(err, code)` for a grpc status code. They are modelled as
independent attributes of an abstract error value. -/

/-- The grpc status codes the verifier distinguishes with `errs2.IsRPC`. -/
inductive RpcCode
  | unknownCode
  | notFound
  | deadlineExceeded
  | otherCode
deriving Repr, DecidableEq

instance : Fintype RpcCode :=
  ⟨⟨{.unknownCode, .notFound, .deadlineExceeded, .otherCode}, by decide⟩,
    by intro x; cases x <;> decide⟩

/-- An abstract Go error as the verifier observes it: whether it carries the
transport error class, whether it is `context.DeadlineExceeded`, and the grpc
status code it carries, if any. -/
structure GoErr where
  isTransportError : Bool
  isContextDeadlineExceeded : Bool
  rpcCode : Option RpcCode
deriving Repr, DecidableEq

instance : Fintype GoErr := by
  classical
  exact Fintype.ofSurjective
    (fun x : Bool × Bool × Option RpcCode => GoErr.mk x.1 x.2.1 x.2.2)
    (by intro g; exact ⟨⟨g.isTransportError, g.isContextDeadlineExceeded, g.rpcCode⟩, rfl⟩)

/-- Where the share-classification loop of `Verifier.Verify` puts the node of
one downloaded share. `containedFailed` is the fall-through in the source: the
transport-error branch that marks a node contained does not `continue`, so a
transport-class error that also carries grpc `NotFound` additionally appends
the node to `failedNodes`. -/
inductive ShareOutcome
  | audit
  | offline
  | failed
  | contained
  | containedFailed
deriving Repr, DecidableEq

/-- The body of the share-classification loop of `Verifier.Verify`
(src/unnamed/part_004, lines 115-156), for one share's error. -/
def classifyShare : Option GoErr → ShareOutcome
  | none => .audit
  | some e =>
    if e.isTransportError then
      if e.isContextDeadlineExceeded then .offline
      else if e.rpcCode = some .unknownCode then .offline
      else
        -- containedNodes[pieceNum] is set here and control falls through
        -- (no `continue`) to the grpc-code checks below.
        if e.rpcCode = some .notFound then .containedFailed
        else .contained
    else
      if e.rpcCode = some .notFound then .failed
      else if e.rpcCode = some .deadlineExceeded then .contained
      else .contained

/-- The classification exactly as claim C4 words it: no error → audit;
transport error that is a dial timeout → offline; transport error of unknown
kind → contained; RPC NOT_FOUND → failed; RPC DEADLINE_EXCEEDED after dial →
contained; any other error → contained. Written from the claim's words, to be
compared with `classifyShare`, which is written from the source. -/
def classifyShareClaimed : Option GoErr → ShareOutcome
  | none => .audit
  | some e =>
    if e.isTransportError ∧ e.isContextDeadlineExceeded then .offline
    else if e.isTransportError then .contained
    else if e.rpcCode = some .notFound then .failed
    else if e.rpcCode = some .deadlineExceeded then .contained
    else .contained

/-- One entry of the `shares` map `DownloadShares` hands to the
classification loop: piece number, node id, and the error of the download,
if any. -/
structure ShareEntry where
  pieceNum : Int
  nodeId : Nat
  err : Option GoErr
deriving Repr, DecidableEq

/-- The state the classification loop of `Verifier.Verify` accumulates:
`sharesToAudit` (error-free shares), and the nodes appended to
`offlineNodes` and `failedNodes` and inserted into `containedNodes`. -/
structure ClassifyState where
  sharesToAudit : List ShareEntry
  offlineNodes : List Nat
  failedNodes : List Nat
  containedNodes : List (Int × Nat)
deriving Repr, DecidableEq

/-- The share-classification loop of `Verifier.Verify` over the whole
`shares` map, folding `classifyShare` over the entries. (Go iterates the map
in unspecified order; the model iterates the list it is given.) -/
def classifyLoop : List ShareEntry → ClassifyState
  | [] => ⟨[], [], [], []⟩
  | sh :: rest =>
    let st := classifyLoop rest
    match classifyShare sh.err with
    | .audit => { st with sharesToAudit := sh :: st.sharesToAudit }
    | .offline => { st with offlineNodes := sh.nodeId :: st.offlineNodes }
    | .failed => { st with failedNodes := sh.nodeId :: st.failedNodes }
    | .contained => { st with containedNodes := (sh.pieceNum, sh.nodeId) :: st.containedNodes }
    | .containedFailed =>
      { st with failedNodes := sh.nodeId :: st.failedNodes,
                containedNodes := (sh.pieceNum, sh.nodeId) :: st.containedNodes }

/-- Modelled from the spec: `orders.CreateAuditOrderLimits` (its code is not
under src/; only its caller is). Per the spec, a GET_AUDIT order limit is
built for each piece, nodes of the `skip` set are omitted, and a piece whose
node is offline or disqualified gets a nil limit. `online nid` stands for
"the overlay holds the node, it is online and not disqualified". -/
def auditLimitCreated (skip online : Nat → Bool) (nid : Nat) : Bool :=
  !skip nid && online nid

/-- `getOfflineNodes` (src/unnamed/part_004, lines 596-613): the nodes of the
pointer's pieces that have no order limit and are not in the skip set.
`hasLimit` is membership in the `nodesWithLimit` set built from the non-nil
limits. -/
def getOfflineNodes (pieces : List RemotePiece) (hasLimit skip : Nat → Bool) :
    List Nat :=
  (pieces.filter fun p => !hasLimit p.nodeId && !skip p.nodeId).map RemotePiece.nodeId

/-- The `shares` map `DownloadShares` returns to `Verify`, as entries keyed
by piece number: one entry per piece that got a (non-nil) order limit, with
the download outcome `dl p`. -/
def downloadedShares (pieces : List RemotePiece) (skip online : Nat → Bool)
    (dl : RemotePiece → Option GoErr) : List ShareEntry :=
  (pieces.filter fun p => auditLimitCreated skip online p.nodeId).map
    fun p => ⟨p.pieceNum, p.nodeId, dl p⟩

/-- `getSuccessNodes` (src/unnamed/part_004, lines 616-636): nodes of shares
that are in none of the failed, offline or contained sets. -/
def getSuccessNodes (shares : List ShareEntry) (failedNodes offlineNodes : List Nat)
    (containedNodes : List (Int × Nat)) : List Nat :=
  (shares.filter fun sh =>
    decide (sh.nodeId ∉ failedNodes) &&
    decide (sh.nodeId ∉ offlineNodes) &&
    decide (sh.nodeId ∉ containedNodes.map Prod.snd)).map ShareEntry.nodeId

/-- `audit.Report`, with pending audits abstracted to the node ids they are
created for (`createPendingAudits` emits one `PendingAudit` per entry of
`containedNodes`). -/
structure Report where
  successes : List Nat
  fails : List Nat
  offlines : List Nat
  pendingAudits : List Nat
deriving Repr, DecidableEq

/-- The error `Verifier.Verify` returns when fewer error-free shares than the
redundancy's `MinReq` were downloaded. -/
inductive VerifyErr
  | notEnoughShares (got required : Int)
deriving Repr, DecidableEq

/-- `Verifier.Verify` (src/unnamed/part_004, lines 78-239) on the path where
order creation, the downloads' collection and the segment-deleted check
succeed, as a function of: the segment's pieces and redundancy, the skip set,
the spec-modelled limit availability `online`, each limited piece's download
outcome `dl`, and the piece numbers `auditShares`/`infectious.Correct`
flagged as altered (`altered` is meaningful only when it lists audited piece
numbers, as `Correct` flags a subset of the shares it was given; a missing
key yields Go's zero node id 0). Returns the report and the error, as the
source returns both. -/
def verify (pieces : List RemotePiece) (red : Redundancy) (skip online : Nat → Bool)
    (dl : RemotePiece → Option GoErr) (altered : List Int) :
    Report × Option VerifyErr :=
  let offlineNodes0 := getOfflineNodes pieces (auditLimitCreated skip online) skip
  let shares := downloadedShares pieces skip online dl
  let st := classifyLoop shares
  let offlineNodes := offlineNodes0 ++ st.offlineNodes
  let required := red.minReq
  if (st.sharesToAudit.length : Int) < required then
    (⟨[], st.failedNodes, offlineNodes, []⟩,
      some (.notEnoughShares (st.sharesToAudit.length : Int) required))
  else
    let failedNodes := st.failedNodes ++ altered.map fun pn =>
      ((shares.find? fun sh => sh.pieceNum = pn).map ShareEntry.nodeId).getD 0
    let successNodes := getSuccessNodes shares failedNodes offlineNodes st.containedNodes
    (⟨successNodes, failedNodes, offlineNodes, st.containedNodes.map Prod.snd⟩, none)

/-- `Verifier.GetShare`'s per-request deadline (src/unnamed/part_004, lines
460-475), in nanoseconds: applied only when `minBytesPerSecond > 0`, it is
`int64(time.Second) * shareSize / minBytesPerSecond`, raised to
`minDownloadTimeout` when smaller. `none` means no deadline is set on the
download context. -/
def getShareTimeout (minBytesPerSecond minDownloadTimeout shareSize : Int) :
    Option Int :=
  if 0 < minBytesPerSecond then
    let maxTransferTime := 1000000000 * shareSize / minBytesPerSecond
    some (if maxTransferTime < minDownloadTimeout then minDownloadTimeout
          else maxTransferTime)
  else none

/-! ## `Verifier.DownloadShares` (src/unnamed/part_004, lines 242-276)

A standalone model keyed by slice index: the function walks the `limits`
slice, skips nil limits, and spawns one `GetShare` per non-nil limit; the
result map is keyed by each share's `PieceNum`, which `GetShare` sets to the
slice index it is given, in the success and in the error case alike. An
order limit is reduced to the node id it addresses, and a `GetShare` call to
its outcome `fetch i nid : Except GoErr (List Nat)` (the downloaded bytes on
success). -/

/-- `audit.Share`: the record `DownloadShares` stores for one limit. -/
structure ShareRec where
  err : Option GoErr
  pieceNum : Int
  nodeId : Nat
  data : Option (List Nat)
deriving Repr, DecidableEq

/-- The share collected for slice index `i` and node `nid`: `GetShare`'s
share on success, and `Share{Error: err, PieceNum: i, NodeID: limit node,
Data: nil}` on error. -/
def collectedShare (i : Nat) (nid : Nat) : Except GoErr (List Nat) → ShareRec
  | .ok buf => ⟨none, (i : Int), nid, some buf⟩
  | .error e => ⟨some e, (i : Int), nid, none⟩

/-- The entries of the `shares` map `DownloadShares` builds, walking the
`limits` slice from index `i`. Nil limits contribute nothing (the collector
loop discards the nil it receives for them). -/
def downloadSharesGo (fetch : Nat → Nat → Except GoErr (List Nat)) :
    Nat → List (Option Nat) → List (Nat × ShareRec)
  | _, [] => []
  | i, none :: rest => downloadSharesGo fetch (i + 1) rest
  | i, some nid :: rest =>
    (i, collectedShare i nid (fetch i nid)) :: downloadSharesGo fetch (i + 1) rest

/-- `Verifier.DownloadShares`: the shares map and the returned error, which
the source always sets to nil. -/
def downloadShares (limits : List (Option Nat))
    (fetch : Nat → Nat → Except GoErr (List Nat)) :
    List (Nat × ShareRec) × Option GoErr :=
  (downloadSharesGo fetch 0 limits, none)

/-! ## Storage-node order verification (`piecestore.Endpoint`) -/

/-- `pb.OrderLimit`, the fields `verifyOrderLimit` and `VerifyOrder` read.
Zero-value checks on opaque ids and keys are modelled as boolean attributes;
times and byte amounts are `Int` (a zero time is the integer 0). -/
structure OrderLimitRec where
  serialNumber : Nat
  satelliteId : Nat
  satelliteIdIsZero : Bool
  storageNodeId : Nat
  uplinkPublicKeyIsZero : Bool
  pieceIdIsZero : Bool
  satelliteSignatureLen : Nat
  limit : Int
  pieceExpiration : Int
  orderExpiration : Int
  orderCreation : Int
deriving Repr, DecidableEq

/-- `pb.Order`: the serial it references and the settled amount. -/
structure OrderRec where
  serialNumber : Nat
  amount : Int
deriving Repr, DecidableEq

/-- The endpoint configuration `verifyOrderLimit` reads. -/
structure EndpointCfg where
  signerId : Nat
  orderLimitGracePeriod : Int
  expirationGracePeriod : Int
deriving Repr, DecidableEq

/-- `Endpoint.IsExpired` (src/unnamed/part_006, lines 146-153): a zero time
never expires; otherwise expired iff before `now` minus the expiration grace
period. -/
def isExpired (cfg : EndpointCfg) (now expiration : Int) : Bool :=
  if expiration = 0 then false
  else decide (expiration < now - cfg.expirationGracePeriod)

/-- Modelled from the spec: the storage node's used-serials store (only its
caller `verifyOrderLimit` is under src/). It records
`(satelliteID, serialNumber, expiration)` triples; `add` rejects a serial
already recorded for the satellite and not yet expired, and otherwise
records it — the spec's "single-use: a storage node rejects a serial it has
already settled", bounded by the recorded expiration. -/
structure UsedSerials where
  entries : List (Nat × Nat × Int)
deriving Repr, DecidableEq

/-- Modelled from the spec: `usedSerials.Add(ctx, satelliteId, serialNumber,
expiration)`: an error when the serial is already recorded for the satellite
and not expired at `now`, otherwise the store with the serial recorded. -/
def UsedSerials.add (st : UsedSerials) (now : Int) (satId serial : Nat)
    (expiration : Int) : Option UsedSerials :=
  if st.entries.any fun e => e.1 = satId && e.2.1 = serial && decide (now < e.2.2) then
    none
  else some ⟨(satId, serial, expiration) :: st.entries⟩

/-- The rejection classes `verifyOrderLimit` returns (grpc status codes in
the source). -/
inductive LimitRejection
  | invalidArgument
  | permissionDenied
  | unauthenticated
  | serialAlreadyUsed
deriving Repr, DecidableEq

/-- `Endpoint.verifyOrderLimit` (src/unnamed/part_006, lines 31-81):
the sanity checks, the satellite trust and signature checks (`trusted` and
`sigValid` stand for `trust.VerifySatelliteID` and
`VerifyOrderLimitSignature` succeeding), then the used-serials insertion
with expiration `min(orderExpiration, now + orderLimitGracePeriod)`.
On acceptance returns the store with the serial recorded. -/
def verifyOrderLimit (cfg : EndpointCfg) (trusted : Nat → Bool) (sigValid : Bool)
    (now : Int) (st : UsedSerials) (lim : OrderLimitRec) :
    Except LimitRejection UsedSerials :=
  if lim.limit < 0 then .error .invalidArgument
  else if cfg.signerId ≠ lim.storageNodeId then .error .invalidArgument
  else if isExpired cfg now lim.pieceExpiration then .error .invalidArgument
  else if isExpired cfg now lim.orderExpiration then .error .invalidArgument
  else if cfg.orderLimitGracePeriod < now - lim.orderCreation then .error .invalidArgument
  else if lim.satelliteIdIsZero then .error .invalidArgument
  else if lim.uplinkPublicKeyIsZero then .error .invalidArgument
  else if lim.satelliteSignatureLen = 0 then .error .invalidArgument
  else if lim.pieceIdIsZero then .error .invalidArgument
  else if ¬ trusted lim.satelliteId then .error .permissionDenied
  else if ¬ sigValid then .error .unauthenticated
  else
    -- serialExpiration: the grace expiration when it comes before the
    -- order expiration, the order expiration otherwise.
    match st.add now lim.satelliteId lim.serialNumber
        (if now + cfg.orderLimitGracePeriod < lim.orderExpiration then
          now + cfg.orderLimitGracePeriod
        else lim.orderExpiration) with
    | none => .error .serialAlreadyUsed
    | some st2 => .ok st2

/-- The rejections `Endpoint.VerifyOrder` returns: the three `ErrProtocol`
cases and the `ErrVerifyUntrusted` signature case. -/
inductive OrderRejection
  | protocolSerialChanged
  | protocolAmountDecreased
  | protocolAmountExceedsLimit
  | untrustedSignature
deriving Repr, DecidableEq

/-- Whether a rejection is one of the `ErrProtocol` cases. -/
def OrderRejection.isProtocol : OrderRejection → Bool
  | .protocolSerialChanged => true
  | .protocolAmountDecreased => true
  | .protocolAmountExceedsLimit => true
  | .untrustedSignature => false

/-- `Endpoint.VerifyOrder` (src/unnamed/part_006, lines 84-103): serial must
match the limit's, the amount must not be below the largest amount already
accepted for the serial nor above the limit, and the uplink signature must
verify (`sigValid` stands for `signing.VerifyUplinkOrderSignature`
succeeding). -/
def verifyOrder (lim : OrderLimitRec) (order : OrderRec)
    (largestOrderAmount : Int) (sigValid : Bool) : Except OrderRejection Unit :=
  if order.serialNumber ≠ lim.serialNumber then .error .protocolSerialChanged
  else if order.amount < largestOrderAmount then .error .protocolAmountDecreased
  else if lim.limit < order.amount then .error .protocolAmountExceedsLimit
  else if ¬ sigValid then .error .untrustedSignature
  else .ok ()

/-! ## Theorems -/

/-- C1: for a remote segment, `Repair` returns an irreparable-class error and
performs no pointer update when `numHealthy < k + 1`, returns success and
performs no pointer update when `numHealthy > r` (given the data-model
invariant `k ≤ r`), and reaches the download/upload/pointer-update path
exactly when `k + 1 ≤ numHealthy ≤ r`. The first two outcomes are returns
taken before any download, upload or `UpdatePieces` call. -/
theorem repair_health_gates (red : Redundancy) (pieces : List RemotePiece)
    (missing : List Int) (nodes : List (Option Nat))
    (hkr : red.minReq ≤ red.repairThreshold) :
    ((pieces.length : Int) - (missing.length : Int) < red.minReq + 1 →
      repairRun true red pieces missing nodes =
        .errorIrreparable ((pieces.length : Int) - (missing.length : Int)))
    ∧ (red.repairThreshold < (pieces.length : Int) - (missing.length : Int) →
      repairRun true red pieces missing nodes = .successNotNeeded)
    ∧ (red.minReq + 1 ≤ (pieces.length : Int) - (missing.length : Int) →
       (pieces.length : Int) - (missing.length : Int) ≤ red.repairThreshold →
      ∃ add remove, repairRun true red pieces missing nodes =
        .updatedPointer add remove) := by
  refine ⟨fun h1 => ?_, fun h2 => ?_, fun h3 h4 => ?_⟩
  · simp only [repairRun, not_true, if_false]
    rw [if_pos h1]
  · simp only [repairRun, not_true, if_false]
    rw [if_neg (by omega), if_pos h2]
  · simp only [repairRun, not_true, if_false]
    rw [if_neg (by omega), if_neg (by omega)]
    exact ⟨_, _, rfl⟩

/-- C1 witness: with `(k, r, s, n) = (2, 3, 4, 5)`, five pieces and two
missing, `numHealthy = 3` lies in `[k+1, r]` and repair reaches the
pointer-update path. -/
theorem repair_health_gates_witness :
    ∃ add remove,
      repairRun true ⟨2, 3, 4, 5⟩ [⟨0, 11⟩, ⟨1, 12⟩, ⟨2, 13⟩, ⟨3, 14⟩, ⟨4, 15⟩]
        [0, 1] [some 21, some 22] = .updatedPointer add remove :=
  (repair_health_gates ⟨2, 3, 4, 5⟩ [⟨0, 11⟩, ⟨1, 12⟩, ⟨2, 13⟩, ⟨3, 14⟩, ⟨4, 15⟩]
    [0, 1] [some 21, some 22] (by decide)).2.2 (by decide) (by decide)

/-- C2: the checker enqueues an injured item for a remote segment iff
`k < numHealthy ≤ r`, `numHealthy < s` and the missing-piece set is
non-empty, where `numHealthy = |pieces| - |missing|`; and with
`k = r = s` no segment is ever enqueued as injured. The hypothesis states
that the missing piece numbers come from the segment's own pieces, as
`ReliabilityCache.MissingPieces` returns a subset of the pieces given. -/
theorem checker_enqueue_iff (red : Redundancy) (pieces : List RemotePiece)
    (missing : List Int)
    (hsub : ∀ m ∈ missing, m ∈ pieces.map RemotePiece.pieceNum) :
    (remoteSegment red pieces missing = .enqueue missing ↔
      (red.minReq < (pieces.length : Int) - (missing.length : Int) ∧
       (pieces.length : Int) - (missing.length : Int) ≤ red.repairThreshold ∧
       (pieces.length : Int) - (missing.length : Int) < red.successThreshold ∧
       missing ≠ []))
    ∧ (red.minReq = red.repairThreshold → red.repairThreshold = red.successThreshold →
       ∀ l lost, remoteSegment red pieces l ≠ .enqueue lost) := by
  constructor
  · by_cases hp : pieces = []
    · subst hp
      have hm : missing = [] := by
        cases missing with
        | nil => rfl
        | cons a l => exact absurd (hsub a (by simp)) (by simp)
      subst hm
      simp [remoteSegment]
    · simp only [remoteSegment, if_neg hp]
      by_cases hc : red.minReq < (pieces.length : Int) - (missing.length : Int) ∧
          (pieces.length : Int) - (missing.length : Int) ≤ red.repairThreshold ∧
          (pieces.length : Int) - (missing.length : Int) < red.successThreshold
      · rw [if_pos hc]
        by_cases hm : missing = []
        · subst hm; simp_all
        · rw [if_neg hm]
          simp [hc, hm]
      · rw [if_neg hc]
        constructor
        · intro h
          split at h <;> simp_all
        · intro h
          exact absurd ⟨h.1, h.2.1, h.2.2.1⟩ hc
  · intro hkr hrs l lost h
    simp only [remoteSegment] at h
    split at h
    · exact CheckerAction.noConfusion h
    · split at h
      · split at h
        · exact CheckerAction.noConfusion h
        · rename_i hc _
          omega
      · split at h <;> exact CheckerAction.noConfusion h

/-- C2 witness: with `(k, r, s, n) = (2, 3, 4, 5)`, five pieces and two
missing (`numHealthy = 3`), the checker enqueues the injured item. -/
theorem checker_enqueue_iff_witness :
    remoteSegment ⟨2, 3, 4, 5⟩ [⟨0, 11⟩, ⟨1, 12⟩, ⟨2, 13⟩, ⟨3, 14⟩, ⟨4, 15⟩]
      [0, 1] = .enqueue [0, 1] :=
  ((checker_enqueue_iff ⟨2, 3, 4, 5⟩ [⟨0, 11⟩, ⟨1, 12⟩, ⟨2, 13⟩, ⟨3, 14⟩, ⟨4, 15⟩]
    [0, 1] (by decide)).1).mpr (by decide)

/-- C3: when repair reaches the pointer-update step, with
`healthyAfter = |healthyPieces| + |repairedPieces|`: if `healthyAfter ≥ s`
the update removes every unhealthy piece, and if `healthyAfter < s` it
removes exactly the unhealthy pieces whose piece number is among the
successfully re-uploaded piece numbers, retaining the rest. -/
theorem repair_pointer_update (red : Redundancy) (pieces : List RemotePiece)
    (missing : List Int) (nodes : List (Option Nat))
    (h1 : red.minReq + 1 ≤ (pieces.length : Int) - (missing.length : Int))
    (h2 : (pieces.length : Int) - (missing.length : Int) ≤ red.repairThreshold) :
    (red.successThreshold ≤
        ((healthyOf pieces missing).length : Int) + ((repairedFrom 0 nodes).length : Int) →
      repairRun true red pieces missing nodes =
        .updatedPointer (repairedFrom 0 nodes) (unhealthyOf pieces missing))
    ∧ (((healthyOf pieces missing).length : Int) + ((repairedFrom 0 nodes).length : Int) <
        red.successThreshold →
      ∃ remove, repairRun true red pieces missing nodes =
          .updatedPointer (repairedFrom 0 nodes) remove ∧
        ∀ p, p ∈ remove ↔ p ∈ unhealthyOf pieces missing ∧
          p.pieceNum ∈ (repairedFrom 0 nodes).map RemotePiece.pieceNum) := by
  constructor
  · intro hs
    simp only [repairRun, not_true, if_false]
    rw [if_neg (by omega), if_neg (by omega), if_pos hs]
  · intro hs
    simp only [repairRun, not_true, if_false]
    rw [if_neg (by omega), if_neg (by omega), if_neg (by omega)]
    refine ⟨_, rfl, fun p => ?_⟩
    simp [List.mem_filter]

/-- C3 witness: with `(k, r, s, n) = (2, 3, 4, 5)`, three healthy pieces and
one successful re-upload, `healthyAfter = 4 ≥ s` and both unhealthy pieces
are removed. -/
theorem repair_pointer_update_witness :
    repairRun true ⟨2, 3, 4, 5⟩ [⟨0, 11⟩, ⟨1, 12⟩, ⟨2, 13⟩, ⟨3, 14⟩, ⟨4, 15⟩]
      [0, 1] [some 21] =
      .updatedPointer (repairedFrom 0 [some 21])
        (unhealthyOf [⟨0, 11⟩, ⟨1, 12⟩, ⟨2, 13⟩, ⟨3, 14⟩, ⟨4, 15⟩] [0, 1]) :=
  (repair_pointer_update ⟨2, 3, 4, 5⟩ [⟨0, 11⟩, ⟨1, 12⟩, ⟨2, 13⟩, ⟨3, 14⟩, ⟨4, 15⟩]
    [0, 1] [some 21] (by decide) (by decide)).1 (by decide)

/-- C4 counterexample: for a transport-class error carrying grpc code
Unknown — an error of unknown kind under any reading of the claim — the
source classifies the node offline (the branch commented "dial failed --
offline node"), while the claim's classification makes it contained. -/
theorem classifyShare_offline_not_contained :
    classifyShare (some ⟨true, false, some .unknownCode⟩) = .offline ∧
    classifyShareClaimed (some ⟨true, false, some .unknownCode⟩) = .contained ∧
    ShareOutcome.offline ≠ ShareOutcome.contained := by decide

/-- C4 as amended: in `Verify`, a share with no error is audited; a
transport error that is a dial timeout, or that carries grpc code Unknown
(dial failed), makes the node offline; a transport error of any other kind
makes the node contained — and additionally failed when it carries grpc
NOT_FOUND, because that branch falls through to the NOT_FOUND check; a
non-transport NOT_FOUND error makes the node failed; every other error
(DEADLINE_EXCEEDED after dial included) makes the node contained. -/
theorem classifyShare_cases (g : GoErr) :
    classifyShare none = .audit
    ∧ (classifyShare (some g) = .offline ↔
        g.isTransportError = true ∧
          (g.isContextDeadlineExceeded = true ∨ g.rpcCode = some .unknownCode))
    ∧ (classifyShare (some g) = .failed ↔
        g.isTransportError = false ∧ g.rpcCode = some .notFound)
    ∧ (classifyShare (some g) = .containedFailed ↔
        g.isTransportError = true ∧ g.isContextDeadlineExceeded = false ∧
          g.rpcCode = some .notFound)
    ∧ (classifyShare (some g) = .contained ↔
        ((g.isTransportError = true ∧ g.isContextDeadlineExceeded = false ∧
            g.rpcCode ≠ some .unknownCode ∧ g.rpcCode ≠ some .notFound) ∨
          (g.isTransportError = false ∧ g.rpcCode ≠ some .notFound))) := by
  revert g; decide

/-- C9 counterexample: with `minBytesPerSecond = 0` (a configuration the
source explicitly tests for), `GetShare` applies no per-request deadline at
all, while the claim says every download gets the deadline
`max(shareSize / minBytesPerSecond, minDownloadTimeout)`. -/
theorem getShareTimeout_none_at_zero :
    getShareTimeout 0 25000000000 4096 = none := by rfl

/-- C9 as amended: when `minBytesPerSecond > 0`, `GetShare` applies a
per-request deadline equal to
`max(shareSize / minBytesPerSecond, minDownloadTimeout)` (computed in
nanoseconds with truncating integer division); when
`minBytesPerSecond ≤ 0` it applies no per-request deadline. -/
theorem getShareTimeout_formula (mbps mdt ss : Int) (h : 0 < mbps) :
    getShareTimeout mbps mdt ss = some (max (1000000000 * ss / mbps) mdt) := by
  simp only [getShareTimeout, if_pos h]
  congr 1
  rcases le_or_lt mdt (1000000000 * ss / mbps) with hle | hlt
  · rw [if_neg (not_lt.mpr hle), max_eq_left hle]
  · rw [if_pos hlt, max_eq_right hlt.le]

/-- C9 witness: a 4096-byte share at 1 MiB/s gives a transfer time below the
25-second floor, so the deadline is the floor. -/
theorem getShareTimeout_formula_witness :
    getShareTimeout 1048576 25000000000 4096 =
      some (max (1000000000 * 4096 / 1048576) 25000000000) :=
  getShareTimeout_formula 1048576 25000000000 4096 (by decide)

/-- C5 (the code at the failing input): a two-piece segment with `k = 1`,
no skips, both limits created; node 1's share downloads cleanly and node 2's
download fails with a transport-class error carrying grpc NOT_FOUND.
`Verify` completes without error and reports node 2 both in `Fails` and in
`PendingAudits` (the unknown-transport contained branch lacks a `continue`,
so the share also reaches the NOT_FOUND check; the parallel branch of
`Reverify` returns there), so the reported sets are not pairwise disjoint
as the claim requires. -/
theorem verify_fails_pending_overlap :
    verify [⟨0, 1⟩, ⟨1, 2⟩] ⟨1, 1, 2, 2⟩ (fun _ => false) (fun _ => true)
        (fun p => if p.pieceNum = 1 then some ⟨true, false, some .notFound⟩ else none)
        [] =
      (⟨[1], [2], [], [2]⟩, none) := by decide

/-- C6: whenever fewer error-free shares than `MinReq` were collected,
`Verify` returns the not-enough-shares error together with a report that
still carries the whole offline set (and no successes or pending audits);
in particular, when no order limit is created for any piece — every limit
nil — the report's offline set is exactly the non-skipped piece nodes and
the same error is returned (the model is a total function, so the call
terminates by construction). -/
theorem verify_not_enough_shares (pieces : List RemotePiece) (red : Redundancy)
    (skip online : Nat → Bool) (dl : RemotePiece → Option GoErr) (altered : List Int)
    (h : ((classifyLoop (downloadedShares pieces skip online dl)).sharesToAudit.length : Int) <
      red.minReq) :
    (verify pieces red skip online dl altered).2 =
      some (.notEnoughShares
        ((classifyLoop (downloadedShares pieces skip online dl)).sharesToAudit.length : Int)
        red.minReq)
    ∧ (verify pieces red skip online dl altered).1.offlines =
        getOfflineNodes pieces (auditLimitCreated skip online) skip ++
          (classifyLoop (downloadedShares pieces skip online dl)).offlineNodes
    ∧ (verify pieces red skip online dl altered).1.successes = []
    ∧ (verify pieces red skip online dl altered).1.pendingAudits = []
    ∧ ((∀ p ∈ pieces, online p.nodeId = false) →
        (verify pieces red skip online dl altered).1.offlines =
          (pieces.filter fun p => !skip p.nodeId).map RemotePiece.nodeId) := by
  have hv : verify pieces red skip online dl altered =
      (⟨[], (classifyLoop (downloadedShares pieces skip online dl)).failedNodes,
        getOfflineNodes pieces (auditLimitCreated skip online) skip ++
          (classifyLoop (downloadedShares pieces skip online dl)).offlineNodes, []⟩,
        some (.notEnoughShares
          ((classifyLoop (downloadedShares pieces skip online dl)).sharesToAudit.length : Int)
          red.minReq)) := by
    simp only [verify]
    rw [if_pos h]
  refine ⟨by rw [hv], by rw [hv], by rw [hv], by rw [hv], fun hall => ?_⟩
  rw [hv]
  have hdl : downloadedShares pieces skip online dl = [] := by
    unfold downloadedShares
    rw [List.filter_eq_nil_iff.mpr fun p hp => by
      simp [auditLimitCreated, hall p hp]]
    rfl
  rw [hdl]
  have hoff : getOfflineNodes pieces (auditLimitCreated skip online) skip =
      (pieces.filter fun p => !skip p.nodeId).map RemotePiece.nodeId := by
    unfold getOfflineNodes
    have hfc : (pieces.filter fun p =>
        !auditLimitCreated skip online p.nodeId && !skip p.nodeId) =
        pieces.filter fun p => !skip p.nodeId :=
      List.filter_congr fun p hp => by simp [auditLimitCreated, hall p hp]
    rw [hfc]
  rw [hoff]
  simp [classifyLoop]

/-- C6 witness: one piece whose node is offline, `k = 1`: no limit is
created, no share is downloaded, and `Verify` returns the not-enough-shares
error with the node reported offline. -/
theorem verify_not_enough_shares_witness :
    (verify [⟨0, 5⟩] ⟨1, 1, 2, 2⟩ (fun _ => false) (fun _ => false)
        (fun _ => none) []).2 = some (.notEnoughShares 0 1) ∧
    (verify [⟨0, 5⟩] ⟨1, 1, 2, 2⟩ (fun _ => false) (fun _ => false)
        (fun _ => none) []).1.offlines = [5] := by
  have := verify_not_enough_shares [⟨0, 5⟩] ⟨1, 1, 2, 2⟩ (fun _ => false)
    (fun _ => false) (fun _ => none) [] (by decide)
  exact ⟨this.1, by rw [this.2.2.2.2 (by decide)]; decide⟩


/-- Accepting `UsedSerials.add` prepends exactly the added triple. -/
theorem usedSerials_add_some (st st2 : UsedSerials) (now : Int) (satId serial : Nat)
    (expiration : Int) (h : st.add now satId serial expiration = some st2) :
    st2.entries = (satId, serial, expiration) :: st.entries := by
  unfold UsedSerials.add at h
  split at h
  · exact Option.noConfusion h
  · rw [← Option.some_inj.mp h]

/-- An accepted order limit leaves the used-serials store with the limit's
satellite, serial and the serial expiration
`min(orderExpiration, now + gracePeriod)` on top of the previous entries. -/
theorem verifyOrderLimit_ok_shape (cfg : EndpointCfg) (trusted : Nat → Bool)
    (sigValid : Bool) (now : Int) (st st2 : UsedSerials) (lim : OrderLimitRec)
    (hok : verifyOrderLimit cfg trusted sigValid now st lim = .ok st2) :
    st2.entries =
      (lim.satelliteId, lim.serialNumber,
        if now + cfg.orderLimitGracePeriod < lim.orderExpiration then
          now + cfg.orderLimitGracePeriod
        else lim.orderExpiration) :: st.entries := by
  unfold verifyOrderLimit at hok
  by_cases h1 : lim.limit < 0
  · rw [if_pos h1] at hok; exact Except.noConfusion hok
  rw [if_neg h1] at hok
  by_cases h2 : cfg.signerId ≠ lim.storageNodeId
  · rw [if_pos h2] at hok; exact Except.noConfusion hok
  rw [if_neg h2] at hok
  by_cases h3 : isExpired cfg now lim.pieceExpiration = true
  · rw [if_pos h3] at hok; exact Except.noConfusion hok
  rw [if_neg h3] at hok
  by_cases h4 : isExpired cfg now lim.orderExpiration = true
  · rw [if_pos h4] at hok; exact Except.noConfusion hok
  rw [if_neg h4] at hok
  by_cases h5 : cfg.orderLimitGracePeriod < now - lim.orderCreation
  · rw [if_pos h5] at hok; exact Except.noConfusion hok
  rw [if_neg h5] at hok
  by_cases h6 : lim.satelliteIdIsZero = true
  · rw [if_pos h6] at hok; exact Except.noConfusion hok
  rw [if_neg h6] at hok
  by_cases h7 : lim.uplinkPublicKeyIsZero = true
  · rw [if_pos h7] at hok; exact Except.noConfusion hok
  rw [if_neg h7] at hok
  by_cases h8 : lim.satelliteSignatureLen = 0
  · rw [if_pos h8] at hok; exact Except.noConfusion hok
  rw [if_neg h8] at hok
  by_cases h9 : lim.pieceIdIsZero = true
  · rw [if_pos h9] at hok; exact Except.noConfusion hok
  rw [if_neg h9] at hok
  by_cases h10 : ¬ trusted lim.satelliteId = true
  · rw [if_pos h10] at hok; exact Except.noConfusion hok
  rw [if_neg h10] at hok
  by_cases h11 : ¬ sigValid = true
  · rw [if_pos h11] at hok; exact Except.noConfusion hok
  rw [if_neg h11] at hok
  rcases hadd : UsedSerials.add st now lim.satelliteId lim.serialNumber
      (if now + cfg.orderLimitGracePeriod < lim.orderExpiration then
        now + cfg.orderLimitGracePeriod
      else lim.orderExpiration) with _ | st3
  · rw [hadd] at hok
    exact Except.noConfusion hok
  · rw [hadd] at hok
    change Except.ok st3 = Except.ok st2 at hok
    injection hok with h32
    rw [← h32]
    exact usedSerials_add_some st st3 now lim.satelliteId lim.serialNumber _ hadd

/-- C7: once `verifyOrderLimit` accepts an order limit — recording its
serial in the used-serials store with expiration
`min(orderExpiration, now + gracePeriod)` — any later `verifyOrderLimit`
call against the resulting store rejects every order limit bearing the same
serial for the same satellite while that recorded expiration has not passed,
whatever the later call's clock, trust view, signature outcome or other
limit fields. So the storage node accepts at most one order limit per serial
within the ticket's lifetime. -/
theorem verifyOrderLimit_single_use (cfg : EndpointCfg) (trusted1 trusted2 : Nat → Bool)
    (sig1 sig2 : Bool) (now1 now2 : Int) (st st2 : UsedSerials)
    (lim1 lim2 : OrderLimitRec)
    (hok : verifyOrderLimit cfg trusted1 sig1 now1 st lim1 = .ok st2)
    (hserial : lim2.serialNumber = lim1.serialNumber)
    (hsat : lim2.satelliteId = lim1.satelliteId)
    (hlife : now2 < min lim1.orderExpiration (now1 + cfg.orderLimitGracePeriod)) :
    ∃ e, verifyOrderLimit cfg trusted2 sig2 now2 st2 lim2 = .error e := by
  have hentries := verifyOrderLimit_ok_shape cfg trusted1 sig1 now1 st st2 lim1 hok
  have hexp : now2 <
      (if now1 + cfg.orderLimitGracePeriod < lim1.orderExpiration then
        now1 + cfg.orderLimitGracePeriod
      else lim1.orderExpiration) := by
    split_ifs <;> omega
  have hnone : ∀ exp2, st2.add now2 lim2.satelliteId lim2.serialNumber exp2 = none := by
    intro exp2
    have hany : (st2.entries.any fun e =>
        e.1 = lim2.satelliteId && e.2.1 = lim2.serialNumber &&
          decide (now2 < e.2.2)) = true := by
      rw [hentries]
      apply List.any_eq_true.mpr
      refine ⟨(lim1.satelliteId, lim1.serialNumber,
          if now1 + cfg.orderLimitGracePeriod < lim1.orderExpiration then
            now1 + cfg.orderLimitGracePeriod
          else lim1.orderExpiration),
        List.mem_cons_self _ _, ?_⟩
      simp only [Bool.and_eq_true, decide_eq_true_eq]
      exact ⟨⟨hsat.symm, hserial.symm⟩, hexp⟩
    unfold UsedSerials.add
    rw [if_pos hany]
  unfold verifyOrderLimit
  by_cases h1 : lim2.limit < 0
  · rw [if_pos h1]; exact ⟨_, rfl⟩
  rw [if_neg h1]
  by_cases h2 : cfg.signerId ≠ lim2.storageNodeId
  · rw [if_pos h2]; exact ⟨_, rfl⟩
  rw [if_neg h2]
  by_cases h3 : isExpired cfg now2 lim2.pieceExpiration = true
  · rw [if_pos h3]; exact ⟨_, rfl⟩
  rw [if_neg h3]
  by_cases h4 : isExpired cfg now2 lim2.orderExpiration = true
  · rw [if_pos h4]; exact ⟨_, rfl⟩
  rw [if_neg h4]
  by_cases h5 : cfg.orderLimitGracePeriod < now2 - lim2.orderCreation
  · rw [if_pos h5]; exact ⟨_, rfl⟩
  rw [if_neg h5]
  by_cases h6 : lim2.satelliteIdIsZero = true
  · rw [if_pos h6]; exact ⟨_, rfl⟩
  rw [if_neg h6]
  by_cases h7 : lim2.uplinkPublicKeyIsZero = true
  · rw [if_pos h7]; exact ⟨_, rfl⟩
  rw [if_neg h7]
  by_cases h8 : lim2.satelliteSignatureLen = 0
  · rw [if_pos h8]; exact ⟨_, rfl⟩
  rw [if_neg h8]
  by_cases h9 : lim2.pieceIdIsZero = true
  · rw [if_pos h9]; exact ⟨_, rfl⟩
  rw [if_neg h9]
  by_cases h10 : ¬ trusted2 lim2.satelliteId = true
  · rw [if_pos h10]; exact ⟨_, rfl⟩
  rw [if_neg h10]
  by_cases h11 : ¬ sig2 = true
  · rw [if_pos h11]; exact ⟨_, rfl⟩
  rw [if_neg h11]
  rw [hnone]
  exact ⟨_, rfl⟩

/-- C7 witness: a concrete limit accepted at time 0 (serial 7, order
expiration 1000, grace period 3600) is rejected when presented again at
time 500 against the store the first call returned. -/
theorem verifyOrderLimit_single_use_witness :
    ∃ e, verifyOrderLimit ⟨10, 3600, 0⟩ (fun _ => true) true 500
        ⟨[(1, 7, 1000)]⟩ ⟨7, 1, false, 10, false, false, 1, 100, 0, 1000, 0⟩ =
      .error e :=
  verifyOrderLimit_single_use ⟨10, 3600, 0⟩ (fun _ => true) (fun _ => true)
    true true 0 500 ⟨[]⟩ ⟨[(1, 7, 1000)]⟩
    ⟨7, 1, false, 10, false, false, 1, 100, 0, 1000, 0⟩
    ⟨7, 1, false, 10, false, false, 1, 100, 0, 1000, 0⟩
    (by rfl) rfl rfl (by decide)

/-- C8: `VerifyOrder` accepts an order iff its serial matches the limit's,
its amount is at least the largest amount previously accepted for the
serial and at most the limit's byte limit, and the uplink signature
verifies; and whenever the serial differs, the amount decreased, or the
amount exceeds the limit, the rejection is one of the protocol errors. -/
theorem verifyOrder_accepts_iff (lim : OrderLimitRec) (order : OrderRec)
    (largestOrderAmount : Int) (sigValid : Bool) :
    (verifyOrder lim order largestOrderAmount sigValid = .ok () ↔
      (order.serialNumber = lim.serialNumber ∧
       largestOrderAmount ≤ order.amount ∧
       order.amount ≤ lim.limit ∧ sigValid = true))
    ∧ ((order.serialNumber ≠ lim.serialNumber ∨
        order.amount < largestOrderAmount ∨ lim.limit < order.amount) →
      ∃ e, verifyOrder lim order largestOrderAmount sigValid = .error e ∧
        e.isProtocol = true) := by
  unfold verifyOrder
  by_cases h1 : order.serialNumber ≠ lim.serialNumber
  · rw [if_pos h1]
    exact ⟨iff_of_false (by simp) fun hc => h1 hc.1, fun _ => ⟨_, rfl, rfl⟩⟩
  rw [if_neg h1]
  by_cases h2 : order.amount < largestOrderAmount
  · rw [if_pos h2]
    exact ⟨iff_of_false (by simp) fun hc => absurd hc.2.1 (not_le.mpr h2),
      fun _ => ⟨_, rfl, rfl⟩⟩
  rw [if_neg h2]
  by_cases h3 : lim.limit < order.amount
  · rw [if_pos h3]
    exact ⟨iff_of_false (by simp) fun hc => absurd hc.2.2.1 (not_le.mpr h3),
      fun _ => ⟨_, rfl, rfl⟩⟩
  rw [if_neg h3]
  refine ⟨?_, fun h => ?_⟩
  · by_cases h4 : ¬ sigValid = true
    · rw [if_pos h4]
      exact iff_of_false (by simp) fun hc => h4 hc.2.2.2
    · rw [if_neg h4]
      exact iff_of_true rfl
        ⟨not_not.mp h1, not_lt.mp h2, not_lt.mp h3, not_not.mp h4⟩
  · rcases h with h | h | h
    · exact absurd h h1
    · exact absurd h h2
    · exact absurd h h3

/-- `collectedShare` stores the limit's node id in both outcomes. -/
theorem collectedShare_nodeId (i nid : Nat) (r : Except GoErr (List Nat)) :
    (collectedShare i nid r).nodeId = nid := by
  cases r <;> rfl

/-- `collectedShare` stores the slice index as the share's piece number in
both outcomes. -/
theorem collectedShare_pieceNum (i nid : Nat) (r : Except GoErr (List Nat)) :
    (collectedShare i nid r).pieceNum = (i : Int) := by
  cases r <;> rfl

/-- Every key the walk from start index `i` produces is at least `i`. -/
theorem downloadSharesGo_key_ge (fetch : Nat → Nat → Except GoErr (List Nat)) :
    ∀ (limits : List (Option Nat)) (i : Nat),
      ∀ p ∈ downloadSharesGo fetch i limits, i ≤ p.1 := by
  intro limits
  induction limits with
  | nil => intro i p hp; simp [downloadSharesGo] at hp
  | cons hd tl ih =>
    intro i p hp
    cases hd with
    | none =>
      have := ih (i + 1) p (by simpa only [downloadSharesGo] using hp)
      omega
    | some nid =>
      simp only [downloadSharesGo, List.mem_cons] at hp
      rcases hp with rfl | hp
      · exact Nat.le_refl i
      · have := ih (i + 1) p hp
        omega

/-- Membership in the walk from start index `i`: exactly the pairs
`(i + j, collectedShare (i + j) nid (fetch (i + j) nid))` for the positions
`j` holding a non-nil limit. -/
theorem downloadSharesGo_mem (fetch : Nat → Nat → Except GoErr (List Nat)) :
    ∀ (limits : List (Option Nat)) (i : Nat) (p : Nat × ShareRec),
      p ∈ downloadSharesGo fetch i limits ↔
        ∃ j nid, limits.get? j = some (some nid) ∧
          p = (i + j, collectedShare (i + j) nid (fetch (i + j) nid)) := by
  intro limits
  induction limits with
  | nil =>
    intro i p
    simp [downloadSharesGo]
  | cons hd tl ih =>
    intro i p
    cases hd with
    | none =>
      simp only [downloadSharesGo]
      rw [ih (i + 1) p]
      constructor
      · rintro ⟨j, nid, hj, hp⟩
        refine ⟨j + 1, nid, by simpa using hj, ?_⟩
        have harith : i + 1 + j = i + (j + 1) := by omega
        rw [hp, harith]
      · rintro ⟨j, nid, hj, hp⟩
        cases j with
        | zero => simp at hj
        | succ j =>
          refine ⟨j, nid, by simpa using hj, ?_⟩
          have harith : i + 1 + j = i + (j + 1) := by omega
          rw [hp, harith]
    | some nid0 =>
      simp only [downloadSharesGo, List.mem_cons]
      rw [ih (i + 1) p]
      constructor
      · rintro (rfl | ⟨j, nid, hj, hp⟩)
        · exact ⟨0, nid0, by simp, by simp⟩
        · refine ⟨j + 1, nid, by simpa using hj, ?_⟩
          have harith : i + 1 + j = i + (j + 1) := by omega
          rw [hp, harith]
      · rintro ⟨j, nid, hj, hp⟩
        cases j with
        | zero =>
          left
          rw [List.get?_cons_zero] at hj
          injection hj with hj2
          injection hj2 with hj3
          subst hj3
          rw [hp]
          simp
        | succ j =>
          right
          refine ⟨j, nid, by simpa using hj, ?_⟩
          have harith : i + 1 + j = i + (j + 1) := by omega
          rw [hp, harith]

/-- The walk's keys are distinct, whatever the start index. -/
theorem downloadSharesGo_keys_nodup (fetch : Nat → Nat → Except GoErr (List Nat)) :
    ∀ (limits : List (Option Nat)) (i : Nat),
      ((downloadSharesGo fetch i limits).map Prod.fst).Nodup := by
  intro limits
  induction limits with
  | nil => intro i; simp [downloadSharesGo]
  | cons hd tl ih =>
    intro i
    cases hd with
    | none => simpa only [downloadSharesGo] using ih (i + 1)
    | some nid =>
      simp only [downloadSharesGo, List.map_cons, List.nodup_cons]
      refine ⟨fun hmem => ?_, ih (i + 1)⟩
      rcases List.mem_map.mp hmem with ⟨p, hp, hpi⟩
      have := downloadSharesGo_key_ge fetch tl (i + 1) p hp
      omega

/-- C10: `DownloadShares` always returns a nil error, and its map holds
exactly one share per non-nil limit, keyed by that limit's slice index:
every non-nil limit contributes its collected share under its own index,
every entry of the map comes from a non-nil limit and carries that index as
its piece number, the keys are distinct, and a failed download contributes
a share holding the error with nil data. -/
theorem downloadShares_characterized (limits : List (Option Nat))
    (fetch : Nat → Nat → Except GoErr (List Nat)) :
    (downloadShares limits fetch).2 = none
    ∧ (∀ i nid, limits.get? i = some (some nid) →
        (i, collectedShare i nid (fetch i nid)) ∈ (downloadShares limits fetch).1)
    ∧ (∀ p ∈ (downloadShares limits fetch).1,
        limits.get? p.1 = some (some p.2.nodeId) ∧
        p.2 = collectedShare p.1 p.2.nodeId (fetch p.1 p.2.nodeId) ∧
        p.2.pieceNum = (p.1 : Int))
    ∧ ((downloadShares limits fetch).1.map Prod.fst).Nodup
    ∧ (∀ i nid e, limits.get? i = some (some nid) → fetch i nid = .error e →
        (i, ⟨some e, (i : Int), nid, none⟩) ∈ (downloadShares limits fetch).1) := by
  refine ⟨rfl, fun i nid h => ?_, fun p hp => ?_, ?_, fun i nid e h hf => ?_⟩
  · exact (downloadSharesGo_mem fetch limits 0
      (i, collectedShare i nid (fetch i nid))).mpr ⟨i, nid, h, by simp⟩
  · rcases (downloadSharesGo_mem fetch limits 0 p).mp hp with ⟨j, nid, hj, hpj⟩
    rw [Nat.zero_add] at hpj
    subst hpj
    refine ⟨?_, ?_, collectedShare_pieceNum j nid (fetch j nid)⟩
    · rw [collectedShare_nodeId]
      exact hj
    · rw [collectedShare_nodeId]
  · exact downloadSharesGo_keys_nodup fetch limits 0
  · have hmem := (downloadSharesGo_mem fetch limits 0
      (i, collectedShare i nid (fetch i nid))).mpr ⟨i, nid, h, by simp⟩
    rw [hf] at hmem
    exact hmem

end Storj
